import Mathlib

/-!
Verification of the Intcode virtual machine of `advent_of_code_2019`
(`intcode_computer.py`), shallowly embedded in Lean 4.

The embedding follows the Python source line by line:
* `Instruction.build_from_instruction_int` mirrors the decimal-string
  decoding (`str(value)`, slicing `[-2:]` / `[:-2]`, `int(...)`,
  zero-padding with `f'{m:0{w}d}'`, and the reversed digit scan), using a
  small token type `SChar` for the characters of the string.
* `pyGet` / `pySet` model Python list subscripts, including the
  wrap-around of negative indices and `IndexError` beyond the range.
* `step` models one iteration of the `while True` loop of
  `IntCodeProgram.run`; `runFuel` iterates it with explicit fuel (the
  source loop has no bound of its own).
* Exceptions raised by the source are modelled as `Except` errors.
-/

deriving instance DecidableEq for Except

/-- Errors raised while building an `Instruction` from its integer
representation: `invalidOpcode` for `OpCode(op_code_int)` failing,
`invalidParameterMode` for `ParameterMode(int(x))` failing on a digit
outside 0..2, and `invalidLiteral` for `int(...)` failing on a string that
is not a numeral (such as a bare or misplaced minus sign). -/
inductive DecodeError where
  | invalidOpcode
  | invalidParameterMode
  | invalidLiteral
deriving DecidableEq

/-- Runtime errors of the interpreter: Python `IndexError` from list
subscripts, a decoding failure re-raised by `run`, the explicit
`ValueError` branches of `run` for an unexpected parameter mode or opcode,
and the `ValueError` of `diagnostic_code`. -/
inductive RunErr where
  | indexError
  | decodeErr (e : DecodeError)
  | unexpectedParameterMode
  | unexpectedOpCode
  | diagnosticFailure
deriving DecidableEq

/-- Opcodes of the Intcode machine, as in the `OpCode` enum of the source. -/
inductive OpCode where
  | ADD
  | MULTIPLY
  | SAVE_TO_ADDRESS
  | READ_FROM_ADDRESS
  | JUMP_IF_TRUE
  | JUMP_IF_FALSE
  | LESS_THAN
  | EQUALS
  | ADJUST_RELATIVE_BASE
  | FINISHED
deriving DecidableEq

/-- `OpCode.expected_parameter_count` from the source. -/
def OpCode.expected_parameter_count : OpCode → Nat
  | .ADD | .MULTIPLY => 3
  | .SAVE_TO_ADDRESS | .READ_FROM_ADDRESS | .ADJUST_RELATIVE_BASE => 1
  | .FINISHED => 0
  | .JUMP_IF_TRUE | .JUMP_IF_FALSE => 2
  | .LESS_THAN | .EQUALS => 3

/-- `OpCode(op_code_int)`: conversion of an integer to the `OpCode` enum;
raises `ValueError` (here `DecodeError.invalidOpcode`) for any value other
than 1..9 and 99. -/
def opCodeOfInt : Int → Except DecodeError OpCode
  | 1 => .ok .ADD
  | 2 => .ok .MULTIPLY
  | 3 => .ok .SAVE_TO_ADDRESS
  | 4 => .ok .READ_FROM_ADDRESS
  | 5 => .ok .JUMP_IF_TRUE
  | 6 => .ok .JUMP_IF_FALSE
  | 7 => .ok .LESS_THAN
  | 8 => .ok .EQUALS
  | 9 => .ok .ADJUST_RELATIVE_BASE
  | 99 => .ok .FINISHED
  | _ => .error .invalidOpcode

/-- Parameter modes, as in the `ParameterMode` enum of the source. -/
inductive ParameterMode where
  | POSITION
  | IMMEDIATE
  | RELATIVE
deriving DecidableEq

/-- An decoded instruction: opcode plus its list of parameter modes. -/
structure Instruction where
  op_code : OpCode
  parameter_mode_list : List ParameterMode
deriving DecidableEq

/-- A character of the decimal string representation of an integer:
either a digit or the minus sign. -/
inductive SChar where
  | digit (d : Nat)
  | minus
deriving DecidableEq

/-- Decimal digits of a natural number, least significant first
(`[]` for 0), computed with explicit fuel so the definition is
structurally recursive. -/
def natDigitsLAux : Nat → Nat → List Nat
  | 0, _ => []
  | fuel + 1, n => if n = 0 then [] else n % 10 :: natDigitsLAux fuel (n / 10)

/-- Decimal digits of a natural number, least significant first
(`[]` for 0). -/
def natDigitsL (n : Nat) : List Nat :=
  natDigitsLAux n n

/-- Decimal digits of a natural number, most significant first, as
produced by Python `str`: `[0]` for 0. -/
def natDigitsM (n : Nat) : List Nat :=
  if n = 0 then [0] else (natDigitsL n).reverse

/-- The characters of Python `str(v)` for an integer `v`. -/
def strOfInt (v : Int) : List SChar :=
  if v < 0 then SChar.minus :: (natDigitsM v.natAbs).map SChar.digit
  else (natDigitsM v.toNat).map SChar.digit

/-- Helper for Python `int(...)` on a string of digit characters:
accumulates left to right, failing on any non-digit character. -/
def parseDigitTokens : Nat → List SChar → Except DecodeError Nat
  | acc, [] => .ok acc
  | acc, SChar.digit d :: rest => parseDigitTokens (10 * acc + d) rest
  | _, SChar.minus :: _ => .error .invalidLiteral

/-- Python `int(s)` on a character sequence: an optional leading minus
sign followed by at least one digit; anything else raises `ValueError`
(here `DecodeError.invalidLiteral`). -/
def parseTokens (ts : List SChar) : Except DecodeError Int :=
  match ts with
  | [] => .error .invalidLiteral
  | SChar.minus :: rest =>
    if rest.isEmpty then .error .invalidLiteral
    else (parseDigitTokens 0 rest).map (fun n => -(n : Int))
  | ts => (parseDigitTokens 0 ts).map (fun n => (n : Int))

/-- The characters of Python `f'{m:0{width}d}'`: the decimal
representation of `m`, zero-padded on the left (after the sign, if any)
to at least `width` characters. -/
def padTokens (m : Int) (width : Nat) : List SChar :=
  if m < 0 then
    let ds := natDigitsM m.natAbs
    SChar.minus ::
      (List.replicate (width - 1 - ds.length) (SChar.digit 0) ++ ds.map SChar.digit)
  else
    let ds := natDigitsM m.toNat
    List.replicate (width - ds.length) (SChar.digit 0) ++ ds.map SChar.digit

/-- `ParameterMode(int(x))` for one character `x` of the padded mode
string: digits 0..2 give the mode, any other digit raises `ValueError`
from the enum (here `invalidParameterMode`), and a minus sign makes
`int(x)` itself raise (here `invalidLiteral`). -/
def parameterModeOfToken : SChar → Except DecodeError ParameterMode
  | SChar.digit 0 => .ok .POSITION
  | SChar.digit 1 => .ok .IMMEDIATE
  | SChar.digit 2 => .ok .RELATIVE
  | SChar.digit _ => .error .invalidParameterMode
  | SChar.minus => .error .invalidLiteral

/-- The list comprehension `[ParameterMode(int(x)) for x in reversed(s)]`
applied to an already reversed character list: converts each character in
order, propagating the first failure. -/
def mapTokensToModes : List SChar → Except DecodeError (List ParameterMode)
  | [] => .ok []
  | t :: rest =>
    match parameterModeOfToken t with
    | .error e => .error e
    | .ok m => (mapTokensToModes rest).map (fun ms => m :: ms)

/-- `Instruction.build_from_instruction_int` from the source: decode one
raw instruction integer into an opcode and parameter-mode list via its
decimal string representation. -/
def Instruction.build_from_instruction_int (value : Int) :
    Except DecodeError Instruction :=
  let digits_str := strOfInt value
  let lastTwo := digits_str.drop (digits_str.length - 2)
  match parseTokens lastTwo with
  | .error e => .error e
  | .ok op_code_int =>
    match opCodeOfInt op_code_int with
    | .error e => .error e
    | .ok op_code =>
      let param_modes_str := digits_str.take (digits_str.length - 2)
      if param_modes_str.isEmpty then
        .ok ⟨op_code, List.replicate op_code.expected_parameter_count ParameterMode.POSITION⟩
      else
        match parseTokens param_modes_str with
        | .error e => .error e
        | .ok m =>
          let padded := padTokens m op_code.expected_parameter_count
          match mapTokensToModes padded.reverse with
          | .error e => .error e
          | .ok param_mode_list => .ok ⟨op_code, param_mode_list⟩

/-- The mutable state of `IntCodeProgram`: the memory (`intcode`), the
input and output queues, the instruction pointer `i`, the
`ran_to_completion` flag and the `relative_base` register. -/
structure IntCodeProgram where
  intcode : List Int
  program_input : List Int
  program_output : List Int
  i : Int
  ran_to_completion : Bool
  relative_base : Int
deriving DecidableEq

/-- The constructor `IntCodeProgram(intcode)`: empty queues, instruction
pointer 0, `ran_to_completion = False`, `relative_base = 0`. -/
def IntCodeProgram.construct (intcode : List Int) : IntCodeProgram :=
  ⟨intcode, [], [], 0, false, 0⟩

/-- Python list read `l[index]`: negative indices wrap around from the
end; indices outside `-len .. len-1` raise `IndexError`. -/
def pyGet (l : List Int) (index : Int) : Except RunErr Int :=
  let j := if index < 0 then index + (l.length : Int) else index
  if 0 ≤ j then
    match l[j.toNat]? with
    | some v => .ok v
    | none => .error .indexError
  else .error .indexError

/-- Python list write `l[index] = value`: negative indices wrap around
from the end; indices outside `-len .. len-1` raise `IndexError`. -/
def pySet (l : List Int) (index value : Int) : Except RunErr (List Int) :=
  let j := if index < 0 then index + (l.length : Int) else index
  if 0 ≤ j ∧ j < (l.length : Int) then .ok (l.set j.toNat value)
  else .error .indexError

/-- `IntCodeProgram.extend_memory` from the source: append zeros so that
`index` becomes a valid position, if it is beyond the current length. -/
def IntCodeProgram.extend_memory (p : IntCodeProgram) (index : Int) : IntCodeProgram :=
  let indices_to_add : Int := index + 1 - (p.intcode.length : Int)
  if 0 < indices_to_add then
    { p with intcode := p.intcode ++ List.replicate indices_to_add.toNat 0 }
  else p

/-- `IntCodeProgram.read_parameter_value` from the source: resolve a
parameter at position `index` of the intcode according to `mode`,
extending memory before a POSITION/RELATIVE read.  Returns the value and
the (possibly extended) program state. -/
def IntCodeProgram.read_parameter_value (p : IntCodeProgram) (index : Int)
    (mode : ParameterMode) : Except RunErr (Int × IntCodeProgram) :=
  match pyGet p.intcode index with
  | .error e => .error e
  | .ok parameter =>
    match mode with
    | .IMMEDIATE => .ok (parameter, p)
    | .POSITION | .RELATIVE =>
      let parameter_value_index :=
        if mode = ParameterMode.RELATIVE then parameter + p.relative_base else parameter
      let p' := p.extend_memory parameter_value_index
      match pyGet p'.intcode parameter_value_index with
      | .error e => .error e
      | .ok parameter_value => .ok (parameter_value, p')

/-- The ADD / MULTIPLY / LESS_THAN / EQUALS branch of `run`. -/
def mathOp (p : IntCodeProgram) (instruction : Instruction) : Except RunErr IntCodeProgram :=
  match instruction.parameter_mode_list[0]? with
  | none => .error .indexError
  | some m0 =>
    match p.read_parameter_value (p.i + 1) m0 with
    | .error e => .error e
    | .ok (num0, p) =>
      match instruction.parameter_mode_list[1]? with
      | none => .error .indexError
      | some m1 =>
        match p.read_parameter_value (p.i + 1 + 1) m1 with
        | .error e => .error e
        | .ok (num1, p) =>
          let resultE : Except RunErr Int :=
            match instruction.op_code with
            | .ADD => .ok (num0 + num1)
            | .MULTIPLY => .ok (num0 * num1)
            | .LESS_THAN => .ok (if num0 < num1 then 1 else 0)
            | .EQUALS => .ok (if num0 = num1 then 1 else 0)
            | _ => .error .unexpectedOpCode
          match resultE with
          | .error e => .error e
          | .ok result =>
            match instruction.parameter_mode_list[2]? with
            | none => .error .indexError
            | some result_mode =>
              let addressE : Except RunErr Int :=
                match result_mode with
                | .POSITION => pyGet p.intcode (p.i + 1 + 2)
                | .RELATIVE =>
                  (pyGet p.intcode (p.i + 1 + 2)).map (fun a => a + p.relative_base)
                | .IMMEDIATE => .error .unexpectedParameterMode
              match addressE with
              | .error e => .error e
              | .ok address =>
                let p := p.extend_memory address
                match pySet p.intcode address result with
                | .error e => .error e
                | .ok ic =>
                  .ok { p with intcode := ic, i := p.i + 1 + instruction.op_code.expected_parameter_count }

/-- One iteration result of the `while True` loop of `run`: continue
looping with a new state, or return (halt or suspension, distinguished by
the `ran_to_completion` flag of the returned state). -/
inductive StepRes where
  | next (p : IntCodeProgram)
  | ret (p : IntCodeProgram)
deriving DecidableEq

/-- The SAVE_TO_ADDRESS (input) branch of `run`.  In RELATIVE mode the
memory is extended before the input queue is inspected; with an empty
input queue the function returns with `ran_to_completion = False`. -/
def inputOp (p : IntCodeProgram) (instruction : Instruction) : Except RunErr StepRes :=
  match instruction.parameter_mode_list[0]? with
  | none => .error .indexError
  | some mode =>
    let numE : Except RunErr (Int × IntCodeProgram) :=
      match mode with
      | .POSITION => (pyGet p.intcode (p.i + 1)).map (fun n => (n, p))
      | .RELATIVE =>
        match pyGet p.intcode (p.i + 1) with
        | .error e => .error e
        | .ok parameter_value =>
          let index := parameter_value + p.relative_base
          .ok (index, p.extend_memory index)
      | .IMMEDIATE => .error .unexpectedParameterMode
    match numE with
    | .error e => .error e
    | .ok (num, p) =>
      match p.program_input with
      | [] => .ok (.ret { p with ran_to_completion := false })
      | x :: rest =>
        match pySet p.intcode num x with
        | .error e => .error e
        | .ok ic =>
          .ok (.next { p with intcode := ic, program_input := rest, i := p.i + 1 + instruction.op_code.expected_parameter_count })

/-- The READ_FROM_ADDRESS (output) branch of `run`. -/
def outputOp (p : IntCodeProgram) (instruction : Instruction) : Except RunErr IntCodeProgram :=
  match instruction.parameter_mode_list[0]? with
  | none => .error .indexError
  | some m0 =>
    match p.read_parameter_value (p.i + 1) m0 with
    | .error e => .error e
    | .ok (num, p) =>
      .ok { p with program_output := p.program_output ++ [num], i := p.i + 1 + instruction.op_code.expected_parameter_count }

/-- The JUMP_IF_TRUE / JUMP_IF_FALSE branch of `run`. -/
def jumpOp (p : IntCodeProgram) (instruction : Instruction) : Except RunErr IntCodeProgram :=
  match instruction.parameter_mode_list[0]? with
  | none => .error .indexError
  | some m0 =>
    match p.read_parameter_value (p.i + 1) m0 with
    | .error e => .error e
    | .ok (num0, p) =>
      match instruction.parameter_mode_list[1]? with
      | none => .error .indexError
      | some m1 =>
        match p.read_parameter_value (p.i + 1 + 1) m1 with
        | .error e => .error e
        | .ok (num1, p) =>
          match instruction.op_code with
          | .JUMP_IF_TRUE =>
            if num0 ≠ 0 then .ok { p with i := num1 }
            else .ok { p with i := p.i + 1 + instruction.op_code.expected_parameter_count }
          | .JUMP_IF_FALSE =>
            if num0 = 0 then .ok { p with i := num1 }
            else .ok { p with i := p.i + 1 + instruction.op_code.expected_parameter_count }
          | _ => .error .unexpectedOpCode

/-- The ADJUST_RELATIVE_BASE branch of `run`. -/
def adjustOp (p : IntCodeProgram) (instruction : Instruction) : Except RunErr IntCodeProgram :=
  match instruction.parameter_mode_list[0]? with
  | none => .error .indexError
  | some m0 =>
    match p.read_parameter_value (p.i + 1) m0 with
    | .error e => .error e
    | .ok (num, p) =>
      .ok { p with relative_base := p.relative_base + num, i := p.i + 1 + instruction.op_code.expected_parameter_count }

/-- Dispatch on the opcode of a decoded instruction, as the if/elif chain
of `run` does. -/
def stepDecoded (p : IntCodeProgram) (instruction : Instruction) : Except RunErr StepRes :=
  match instruction.op_code with
  | .FINISHED => .ok (.ret { p with ran_to_completion := true })
  | .ADD | .MULTIPLY | .LESS_THAN | .EQUALS => (mathOp p instruction).map .next
  | .SAVE_TO_ADDRESS => inputOp p instruction
  | .READ_FROM_ADDRESS => (outputOp p instruction).map .next
  | .JUMP_IF_TRUE | .JUMP_IF_FALSE => (jumpOp p instruction).map .next
  | .ADJUST_RELATIVE_BASE => (adjustOp p instruction).map .next

/-- One iteration of the `while True` loop of `run`: fetch the value at
the instruction pointer, decode it, and execute it. -/
def step (p : IntCodeProgram) : Except RunErr StepRes :=
  match pyGet p.intcode p.i with
  | .error e => .error e
  | .ok value =>
    match Instruction.build_from_instruction_int value with
    | .error e => .error (.decodeErr e)
    | .ok instruction => stepDecoded p instruction

/-- Result of running the loop with bounded fuel: `done p` when `run`
returned (halt or suspension), `outOfFuel p` when the fuel ran out with
the loop still going. -/
inductive RunRes where
  | done (p : IntCodeProgram)
  | outOfFuel (p : IntCodeProgram)
deriving DecidableEq

/-- `IntCodeProgram.run` from the source, iterated with explicit fuel:
the Python loop itself has no step bound. -/
def runFuel : Nat → IntCodeProgram → Except RunErr RunRes
  | 0, p => .ok (.outOfFuel p)
  | fuel + 1, p =>
    match step p with
    | .error e => .error e
    | .ok (.ret p') => .ok (.done p')
    | .ok (.next p') => runFuel fuel p'

/-- `IntCodeProgram.diagnostic_code` from the source: pop the last output
value, then fail if any remaining output is non-zero, otherwise return
the popped value.  The returned state reflects the pop, which happens
before the check.  Popping from an empty output list raises `IndexError`. -/
def IntCodeProgram.diagnostic_code (p : IntCodeProgram) :
    Except RunErr Int × IntCodeProgram :=
  match p.program_output with
  | [] => (.error .indexError, p)
  | _ :: _ =>
    let code := p.program_output.getLast!
    let rest := p.program_output.dropLast
    let p' := { p with program_output := rest }
    if rest.any (fun c => c ≠ 0) then (.error .diagnosticFailure, p')
    else (.ok code, p')


/-! ## Decimal-digit lemmas -/

theorem natDigitsLAux_zero (f : Nat) : natDigitsLAux f 0 = [] := by
  cases f <;> simp [natDigitsLAux]

theorem natDigitsLAux_congr : ∀ f1 f2 n : Nat, n ≤ f1 → n ≤ f2 →
    natDigitsLAux f1 n = natDigitsLAux f2 n := by
  intro f1
  induction f1 with
  | zero =>
    intro f2 n h1 _
    have hn : n = 0 := Nat.le_zero.mp h1
    subst hn
    simp [natDigitsLAux_zero]
  | succ f ih =>
    intro f2 n h1 h2
    rcases Nat.eq_zero_or_pos n with hn | hn
    · subst hn; simp [natDigitsLAux_zero]
    · obtain ⟨f2', rfl⟩ : ∃ k, f2 = k + 1 := ⟨f2 - 1, by omega⟩
      simp only [natDigitsLAux]
      have hne : ¬n = 0 := by omega
      rw [if_neg hne, if_neg hne]
      have hlt := Nat.div_lt_self hn (by norm_num : 1 < 10)
      rw [ih f2' (n / 10) (by omega) (by omega)]

theorem natDigitsL_def (n : Nat) :
    natDigitsL n = if n = 0 then [] else n % 10 :: natDigitsL (n / 10) := by
  rcases Nat.eq_zero_or_pos n with hn | hn
  · subst hn; simp [natDigitsL, natDigitsLAux_zero]
  · obtain ⟨m, rfl⟩ : ∃ k, n = k + 1 := ⟨n - 1, by omega⟩
    rw [if_neg (by omega)]
    show natDigitsLAux (m + 1) (m + 1) = _
    simp only [natDigitsLAux]
    rw [if_neg (by omega)]
    have hlt := Nat.div_lt_self hn (by norm_num : 1 < 10)
    congr 1
    exact natDigitsLAux_congr m ((m + 1) / 10) ((m + 1) / 10) (by omega) (Nat.le_refl _)

theorem natDigitsL_eq_nil_iff (n : Nat) : natDigitsL n = [] ↔ n = 0 := by
  rw [natDigitsL_def]
  rcases Nat.eq_zero_or_pos n with hn | hn
  · subst hn; simp
  · rw [if_neg (by omega)]
    simp
    omega

/-- The value of a least-significant-first digit list. -/
def digitsVal : List Nat → Nat
  | [] => 0
  | d :: rest => 10 * digitsVal rest + d

theorem digitsVal_natDigitsL (n : Nat) : digitsVal (natDigitsL n) = n := by
  induction n using Nat.strong_induction_on with
  | _ n ih =>
    rw [natDigitsL_def]
    rcases Nat.eq_zero_or_pos n with hn | hn
    · subst hn; simp [digitsVal]
    · rw [if_neg (by omega)]
      simp only [digitsVal]
      rw [ih (n / 10) (Nat.div_lt_self hn (by norm_num))]
      omega

theorem digitsVal_take (k : Nat) : ∀ n : Nat, digitsVal ((natDigitsL n).take k) = n % 10 ^ k := by
  induction k with
  | zero => intro n; simp [digitsVal, Nat.mod_one]
  | succ k ih =>
    intro n
    rw [natDigitsL_def]
    rcases Nat.eq_zero_or_pos n with hn | hn
    · subst hn; simp [digitsVal]
    · rw [if_neg (by omega)]
      simp only [List.take_succ_cons, digitsVal]
      rw [ih (n / 10), pow_succ', Nat.mod_mul]
      omega

theorem natDigitsL_drop (k : Nat) : ∀ n : Nat, (natDigitsL n).drop k = natDigitsL (n / 10 ^ k) := by
  induction k with
  | zero => intro n; simp
  | succ k ih =>
    intro n
    rw [natDigitsL_def]
    rcases Nat.eq_zero_or_pos n with hn | hn
    · subst hn
      simp only [if_pos rfl, List.drop_nil]
      rw [Nat.zero_div]
      simp [natDigitsL, natDigitsLAux_zero]
    · rw [if_neg (by omega)]
      simp only [List.drop_succ_cons]
      rw [ih (n / 10), Nat.div_div_eq_div_mul, ← pow_succ']

theorem natDigitsL_getElem? (n k : Nat) :
    (natDigitsL n)[k]? =
      if n / 10 ^ k = 0 then none else some (n / 10 ^ k % 10) := by
  have h1 : (natDigitsL n)[k]? = ((natDigitsL n).drop k).head? := by
    rw [List.head?_drop]
  rw [h1, natDigitsL_drop, natDigitsL_def]
  rcases Nat.eq_zero_or_pos (n / 10 ^ k) with hz | hz
  · rw [if_pos hz, if_pos hz]; rfl
  · rw [if_neg (by omega), if_neg (by omega)]; rfl

theorem lt_pow_length_natDigitsL (n : Nat) : n < 10 ^ (natDigitsL n).length := by
  induction n using Nat.strong_induction_on with
  | _ n ih =>
    rw [natDigitsL_def]
    rcases Nat.eq_zero_or_pos n with hn | hn
    · subst hn; simp
    · rw [if_neg (by omega)]
      simp only [List.length_cons]
      have h := ih (n / 10) (Nat.div_lt_self hn (by norm_num))
      rw [pow_succ']
      omega

theorem natDigitsL_length_iff (n k : Nat) :
    k < (natDigitsL n).length ↔ n / 10 ^ k ≠ 0 := by
  constructor
  · intro h
    have h2 : (natDigitsL n)[k]?.isSome := by
      rw [List.getElem?_eq_getElem h]; rfl
    rw [natDigitsL_getElem? n k] at h2
    intro hz
    rw [if_pos hz] at h2
    cases h2
  · intro h
    by_contra hk
    have hle : (natDigitsL n).length ≤ k := by omega
    have h2 : (natDigitsL n)[k]? = none := List.getElem?_eq_none hle
    rw [natDigitsL_getElem? n k, if_neg h] at h2
    cases h2

theorem natDigitsL_singleton (a : Nat) (h1 : a ≠ 0) (h2 : a < 10) :
    natDigitsL a = [a] := by
  rw [natDigitsL_def, if_neg h1, Nat.mod_eq_of_lt h2,
    Nat.div_eq_of_lt h2, natDigitsL_def]
  simp

theorem two_le_length_natDigitsL (a : Nat) (h : 10 ≤ a) :
    2 ≤ (natDigitsL a).length := by
  rw [natDigitsL_def, if_neg (by omega)]
  rw [natDigitsL_def, if_neg (by omega : ¬a / 10 = 0)]
  simp

theorem natDigitsM_of_ne_zero {n : Nat} (h : n ≠ 0) :
    natDigitsM n = (natDigitsL n).reverse := by
  rw [natDigitsM, if_neg h]

/-! ## Parsing lemmas -/

theorem parseDigitTokens_map_digit (ds : List Nat) :
    ∀ acc : Nat, parseDigitTokens acc (ds.map SChar.digit) =
      .ok (ds.foldl (fun a d => 10 * a + d) acc) := by
  induction ds with
  | nil => intro acc; rfl
  | cons d rest ih =>
    intro acc
    simp only [List.map_cons, parseDigitTokens, List.foldl_cons]
    exact ih (10 * acc + d)

theorem digitsVal_eq_foldr (l : List Nat) :
    l.foldr (fun d a => 10 * a + d) 0 = digitsVal l := by
  induction l with
  | nil => rfl
  | cons d rest ih => simp [List.foldr_cons, digitsVal, ih]

theorem parseTokens_digit_cons (d : Nat) (ts : List SChar) :
    parseTokens (SChar.digit d :: ts) =
      (parseDigitTokens 0 (SChar.digit d :: ts)).map (fun n => (n : Int)) := rfl

theorem parseTokens_minus_cons (ts : List SChar) :
    parseTokens (SChar.minus :: ts) =
      if ts.isEmpty then .error .invalidLiteral
      else (parseDigitTokens 0 ts).map (fun n => -(n : Int)) := rfl

theorem parseTokens_digits_reverse (l : List Nat) (h : l ≠ []) :
    parseTokens ((l.reverse).map SChar.digit) = .ok ((digitsVal l : Nat) : Int) := by
  have hfold : parseDigitTokens 0 ((l.reverse).map SChar.digit) =
      .ok (digitsVal l) := by
    rw [parseDigitTokens_map_digit, List.foldl_reverse]
    rw [digitsVal_eq_foldr]
  cases hr : l.reverse with
  | nil => exact absurd (by simpa using hr) h
  | cons d tl =>
    rw [hr] at hfold
    simp only [List.map_cons] at hfold ⊢
    rw [parseTokens_digit_cons, hfold]
    rfl

theorem reverse_drop_length_sub {α : Type} (l : List α) (k : Nat) :
    l.reverse.drop (l.length - k) = (l.take k).reverse := by
  rcases Nat.le_total k l.length with h | h
  · conv_lhs => rw [← List.take_append_drop k l, List.reverse_append]
    rw [List.drop_left' (by simp)]
  · rw [List.take_of_length_le h, Nat.sub_eq_zero_of_le h, List.drop_zero]

theorem reverse_take_length_sub {α : Type} (l : List α) (k : Nat) :
    l.reverse.take (l.length - k) = (l.drop k).reverse := by
  rcases Nat.le_total k l.length with h | h
  · conv_lhs => rw [← List.take_append_drop k l, List.reverse_append]
    rw [List.take_left' (by simp)]
  · rw [List.drop_of_length_le h, Nat.sub_eq_zero_of_le h, List.take_zero]
    rfl

/-! ## Mode-conversion lemmas -/

/-- Total version of `parameterModeOfToken`, defaulting to POSITION; used
only to state what a successful conversion returns. -/
def tokenModeD (t : SChar) : ParameterMode :=
  match parameterModeOfToken t with
  | .ok m => m
  | .error _ => ParameterMode.POSITION

/-- The mode a digit 0..2 denotes (defaulting to POSITION elsewhere). -/
def pmOfDigit (d : Nat) : ParameterMode :=
  match d with
  | 0 => ParameterMode.POSITION
  | 1 => ParameterMode.IMMEDIATE
  | 2 => ParameterMode.RELATIVE
  | _ => ParameterMode.POSITION

theorem tokenModeD_digit (d : Nat) : tokenModeD (SChar.digit d) = pmOfDigit d := by
  match d with
  | 0 => rfl
  | 1 => rfl
  | 2 => rfl
  | (k + 3) => rfl

theorem parameterModeOfToken_digit_error (d : Nat) (h : 2 < d) :
    parameterModeOfToken (SChar.digit d) = .error .invalidParameterMode := by
  match d, h with
  | (k + 3), _ => rfl

theorem parameterModeOfToken_error_kind (t : SChar) (e : DecodeError)
    (h : parameterModeOfToken t = .error e) :
    e = .invalidParameterMode ∨ e = .invalidLiteral := by
  match t, h with
  | SChar.digit 0, h => cases h
  | SChar.digit 1, h => cases h
  | SChar.digit 2, h => cases h
  | SChar.digit (k + 3), h =>
    exact Or.inl (Except.error.inj h).symm
  | SChar.minus, h =>
    exact Or.inr (Except.error.inj h).symm

theorem mapTokensToModes_ok (ts : List SChar) (r : List ParameterMode)
    (h : mapTokensToModes ts = .ok r) : r = ts.map tokenModeD := by
  induction ts generalizing r with
  | nil =>
    simp only [mapTokensToModes] at h
    simp [← Except.ok.inj h]
  | cons hd tl ih =>
    simp only [mapTokensToModes] at h
    cases hh : parameterModeOfToken hd with
    | error e => rw [hh] at h; cases h
    | ok m =>
      rw [hh] at h
      cases htl : mapTokensToModes tl with
      | error e => rw [htl] at h; cases h
      | ok r' =>
        rw [htl] at h
        have hr : r = m :: r' := (Except.ok.inj h).symm
        rw [hr, ih r' htl, List.map_cons]
        congr 1
        rw [tokenModeD, hh]

theorem mapTokensToModes_error_of_mem (ts : List SChar) (t : SChar) (hm : t ∈ ts)
    (he : ∃ e, parameterModeOfToken t = .error e) :
    ∃ e, mapTokensToModes ts = .error e := by
  induction ts with
  | nil => cases hm
  | cons hd tl ih =>
    simp only [mapTokensToModes]
    cases hh : parameterModeOfToken hd with
    | error e => exact ⟨e, rfl⟩
    | ok m =>
      rcases List.mem_cons.mp hm with rfl | hmem
      · obtain ⟨e, he⟩ := he
        rw [hh] at he
        cases he
      · obtain ⟨e, htl⟩ := ih hmem
        rw [htl]
        exact ⟨e, rfl⟩

theorem mapTokensToModes_error_kind (ts : List SChar) (e : DecodeError)
    (h : mapTokensToModes ts = .error e) :
    e = .invalidParameterMode ∨ e = .invalidLiteral := by
  induction ts generalizing e with
  | nil => cases h
  | cons hd tl ih =>
    simp only [mapTokensToModes] at h
    cases hh : parameterModeOfToken hd with
    | error e' =>
      rw [hh] at h
      have : e' = e := Except.error.inj h
      subst this
      exact parameterModeOfToken_error_kind hd e' hh
    | ok m =>
      rw [hh] at h
      cases htl : mapTokensToModes tl with
      | error e' =>
        rw [htl] at h
        have : e' = e := Except.error.inj h
        subst this
        exact ih e' htl
      | ok r' => rw [htl] at h; cases h

theorem parseDigitTokens_error_kind (ts : List SChar) (e : DecodeError) :
    ∀ acc : Nat, parseDigitTokens acc ts = .error e → e = .invalidLiteral := by
  induction ts with
  | nil => intro acc h; cases h
  | cons hd tl ih =>
    intro acc h
    cases hd with
    | digit d =>
      simp only [parseDigitTokens] at h
      exact ih _ h
    | minus =>
      simp only [parseDigitTokens] at h
      exact (Except.error.inj h).symm

theorem parseTokens_error_kind (ts : List SChar) (e : DecodeError)
    (h : parseTokens ts = .error e) : e = .invalidLiteral := by
  match ts, h with
  | [], h => exact (Except.error.inj h).symm
  | SChar.minus :: rest, h =>
    rw [parseTokens_minus_cons] at h
    split at h
    · exact (Except.error.inj h).symm
    · cases hp : parseDigitTokens 0 rest with
      | error e' =>
        rw [hp] at h
        have : e' = e := Except.error.inj h
        subst this
        exact parseDigitTokens_error_kind rest e' 0 hp
      | ok n => rw [hp] at h; cases h
  | SChar.digit d :: rest, h =>
    rw [parseTokens_digit_cons] at h
    cases hp : parseDigitTokens 0 (SChar.digit d :: rest) with
    | error e' =>
      rw [hp] at h
      have : e' = e := Except.error.inj h
      subst this
      exact parseDigitTokens_error_kind _ e' 0 hp
    | ok n => rw [hp] at h; cases h

/-! ## Opcode-table lemmas -/

/-- The known opcode values: 1..9 and 99. -/
def knownOpcodes : List Int := [1, 2, 3, 4, 5, 6, 7, 8, 9, 99]

theorem opCodeOfInt_error_iff (n : Int) :
    opCodeOfInt n = .error .invalidOpcode ↔ n ∉ knownOpcodes := by
  unfold opCodeOfInt
  split <;> simp_all [knownOpcodes]

theorem opCodeOfInt_cases (n : Int) :
    (∃ op, opCodeOfInt n = .ok op) ∨ opCodeOfInt n = .error .invalidOpcode := by
  unfold opCodeOfInt
  split
  all_goals first
  | exact Or.inl ⟨_, rfl⟩
  | exact Or.inr rfl

theorem opCodeOfInt_ok_mem (n : Int) (op : OpCode) (h : opCodeOfInt n = .ok op) :
    n ∈ knownOpcodes := by
  by_contra hn
  rw [← opCodeOfInt_error_iff] at hn
  rw [h] at hn
  cases hn

theorem opCodeOfInt_neg (n : Int) (h : n < 0) :
    opCodeOfInt n = .error .invalidOpcode := by
  rw [opCodeOfInt_error_iff]
  intro hmem
  simp only [knownOpcodes, List.mem_cons, List.not_mem_nil, or_false] at hmem
  omega

/-- The low two decimal digits of an integer, as extracted by
`digits_str[-2:]` in the source: the value itself when it has a single
digit (possibly with a sign), otherwise the last two digits of its
absolute value. -/
def lowTwoDigits (value : Int) : Int :=
  if value.natAbs < 10 then value else ((value.natAbs % 100 : Nat) : Int)

theorem padTokens_reverse_of_ne_zero (m w : Nat) (hm : m ≠ 0) :
    (padTokens (m : Int) w).reverse
      = (natDigitsL m).map SChar.digit ++
        List.replicate (w - (natDigitsL m).length) (SChar.digit 0) := by
  rw [padTokens, if_neg (not_lt.mpr (Int.natCast_nonneg m))]
  simp only [Int.toNat_natCast, natDigitsM_of_ne_zero hm]
  rw [List.reverse_append, List.reverse_replicate, ← List.map_reverse,
    List.reverse_reverse, List.length_reverse]

/-- Arithmetic reformulation of the decoder for non-negative raw values;
`build_eq_decodeArith` proves it agrees with the string-based source
definition. -/
def decodeArith (n : Nat) : Except DecodeError Instruction :=
  match opCodeOfInt ((n % 100 : Nat) : Int) with
  | .error e => .error e
  | .ok op =>
    if n < 100 then
      .ok ⟨op, List.replicate op.expected_parameter_count ParameterMode.POSITION⟩
    else
      match mapTokensToModes
          ((natDigitsL (n / 100)).map SChar.digit ++
            List.replicate
              (op.expected_parameter_count - (natDigitsL (n / 100)).length)
              (SChar.digit 0)) with
      | .error e => .error e
      | .ok modes => .ok ⟨op, modes⟩

theorem build_eq_decodeArith (n : Nat) :
    Instruction.build_from_instruction_int (n : Int) = decodeArith n := by
  rcases Nat.eq_zero_or_pos n with hn | hn
  · subst hn; decide
  · have hne : n ≠ 0 := by omega
    have hLne : natDigitsL n ≠ [] := by rw [Ne, natDigitsL_eq_nil_iff]; omega
    have hstr : strOfInt (n : Int) = ((natDigitsL n).reverse).map SChar.digit := by
      rw [strOfInt, if_neg (not_lt.mpr (Int.natCast_nonneg n)), Int.toNat_natCast,
        natDigitsM_of_ne_zero hne]
    have hlast : (((natDigitsL n).reverse).map SChar.digit).drop
        ((natDigitsL n).length - 2)
        = (((natDigitsL n).take 2).reverse).map SChar.digit := by
      rw [← List.map_drop, reverse_drop_length_sub]
    have htake2 : (natDigitsL n).take 2 ≠ [] := by
      rw [Ne, List.take_eq_nil_iff]
      push_neg
      exact ⟨by omega, hLne⟩
    have hparse1 : parseTokens ((((natDigitsL n).take 2).reverse).map SChar.digit)
        = .ok ((n % 100 : Nat) : Int) := by
      rw [parseTokens_digits_reverse _ htake2]
      congr 2
      rw [digitsVal_take]
      norm_num
    have hfront : (((natDigitsL n).reverse).map SChar.digit).take
        ((natDigitsL n).length - 2)
        = ((natDigitsL (n / 100)).reverse).map SChar.digit := by
      rw [← List.map_take, reverse_take_length_sub]
      congr 2
      have h2 := natDigitsL_drop 2 n
      norm_num at h2
      exact h2
    unfold Instruction.build_from_instruction_int decodeArith
    simp only [hstr, List.length_map, List.length_reverse, hlast, hparse1, hfront]
    cases hop : opCodeOfInt ((n % 100 : Nat) : Int) with
    | error e => rfl
    | ok op =>
      rcases Nat.lt_or_ge n 100 with h100 | h100
      · have hdiv : n / 100 = 0 := by omega
        have hempty : ((natDigitsL (n / 100)).reverse).map SChar.digit = [] := by
          rw [hdiv]
          rw [show natDigitsL 0 = [] from (natDigitsL_eq_nil_iff 0).mpr rfl]
          rfl
        rw [hempty]
        simp only [List.isEmpty_nil, if_true, if_pos h100]
      · have hdivne : n / 100 ≠ 0 := by omega
        have hMne : natDigitsL (n / 100) ≠ [] := by
          rw [Ne, natDigitsL_eq_nil_iff]; exact hdivne
        have hnonempty : (((natDigitsL (n / 100)).reverse).map SChar.digit).isEmpty = false := by
          simp [List.isEmpty_iff, hMne]
        rw [hnonempty]
        simp only [Bool.false_eq_true, if_false, if_neg (by omega : ¬n < 100)]
        rw [parseTokens_digits_reverse _ hMne, digitsVal_natDigitsL]
        dsimp only
        rw [padTokens_reverse_of_ne_zero _ _ hdivne]

theorem opCodeOfInt_error_kind (n : Int) (e : DecodeError)
    (h : opCodeOfInt n = .error e) : e = .invalidOpcode := by
  rcases opCodeOfInt_cases n with ⟨op, hok⟩ | herr
  · rw [hok] at h; cases h
  · rw [herr] at h; exact (Except.error.inj h).symm

theorem parseDigitTokens_digits_reverse (l : List Nat) :
    parseDigitTokens 0 ((l.reverse).map SChar.digit) = .ok (digitsVal l) := by
  rw [parseDigitTokens_map_digit, List.foldl_reverse, digitsVal_eq_foldr]

theorem build_neg_spec (v : Int) (hv : v < 0) :
    ∃ e, Instruction.build_from_instruction_int v = .error e ∧
      (e = DecodeError.invalidOpcode ↔ lowTwoDigits v ∉ knownOpcodes) := by
  have ha : v.natAbs ≠ 0 := by omega
  have hstr : strOfInt v
      = SChar.minus :: ((natDigitsL v.natAbs).reverse).map SChar.digit := by
    rw [strOfInt, if_pos hv, natDigitsM_of_ne_zero ha]
  have hnotmem : v ∉ knownOpcodes := by
    intro hmem
    simp only [knownOpcodes, List.mem_cons, List.not_mem_nil, or_false] at hmem
    omega
  rcases Nat.lt_or_ge v.natAbs 10 with h10 | h10
  · -- single-digit absolute value: the whole string is parsed as the opcode
    have hL : natDigitsL v.natAbs = [v.natAbs] := natDigitsL_singleton _ ha h10
    have hlow : lowTwoDigits v = v := by rw [lowTwoDigits, if_pos h10]
    refine ⟨DecodeError.invalidOpcode, ?_, by rw [hlow]; exact iff_of_true rfl hnotmem⟩
    have hparse : parseTokens
        ((SChar.minus :: (([v.natAbs] : List Nat).reverse).map SChar.digit).drop
          ((SChar.minus :: (([v.natAbs] : List Nat).reverse).map SChar.digit).length - 2))
        = .ok (-(v.natAbs : Int)) := by
      simp [parseTokens_minus_cons, parseDigitTokens, Except.map]
    unfold Instruction.build_from_instruction_int
    simp only [hstr, hL]
    rw [hparse]
    dsimp only
    rw [opCodeOfInt_neg (-(v.natAbs : Int)) (by omega)]
  · -- at least two digits in the absolute value
    have hlen2 : 2 ≤ (natDigitsL v.natAbs).length := two_le_length_natDigitsL _ h10
    have hLne : natDigitsL v.natAbs ≠ [] := by
      intro h
      rw [h] at hlen2
      simp at hlen2
    have hlow : lowTwoDigits v = ((v.natAbs % 100 : Nat) : Int) := by
      rw [lowTwoDigits, if_neg (by omega)]
    have hidx : (SChar.minus :: ((natDigitsL v.natAbs).reverse).map SChar.digit).length - 2
        = ((natDigitsL v.natAbs).length - 2) + 1 := by
      simp only [List.length_cons, List.length_map, List.length_reverse]
      omega
    have htake2 : (natDigitsL v.natAbs).take 2 ≠ [] := by
      rw [Ne, List.take_eq_nil_iff]
      push_neg
      exact ⟨by omega, hLne⟩
    have hlast : (SChar.minus :: ((natDigitsL v.natAbs).reverse).map SChar.digit).drop
        ((SChar.minus :: ((natDigitsL v.natAbs).reverse).map SChar.digit).length - 2)
        = (((natDigitsL v.natAbs).take 2).reverse).map SChar.digit := by
      rw [hidx, List.drop_succ_cons, ← List.map_drop, reverse_drop_length_sub]
    have hparse1 : parseTokens ((((natDigitsL v.natAbs).take 2).reverse).map SChar.digit)
        = .ok ((v.natAbs % 100 : Nat) : Int) := by
      rw [parseTokens_digits_reverse _ htake2]
      congr 2
      rw [digitsVal_take]
      norm_num
    have hfront : (SChar.minus :: ((natDigitsL v.natAbs).reverse).map SChar.digit).take
        ((SChar.minus :: ((natDigitsL v.natAbs).reverse).map SChar.digit).length - 2)
        = SChar.minus :: ((natDigitsL (v.natAbs / 100)).reverse).map SChar.digit := by
      rw [hidx, List.take_succ_cons, ← List.map_take, reverse_take_length_sub]
      have h2 := natDigitsL_drop 2 v.natAbs
      norm_num at h2
      rw [h2]
    unfold Instruction.build_from_instruction_int
    simp only [hstr]
    rw [hlast, hparse1, hfront]
    dsimp only
    cases hop : opCodeOfInt ((v.natAbs % 100 : Nat) : Int) with
    | error e =>
      have he : e = DecodeError.invalidOpcode := opCodeOfInt_error_kind _ _ hop
      subst he
      refine ⟨DecodeError.invalidOpcode, rfl, ?_⟩
      rw [hlow]
      exact iff_of_true rfl ((opCodeOfInt_error_iff _).mp hop)
    | ok op =>
      have hmem : ((v.natAbs % 100 : Nat) : Int) ∈ knownOpcodes :=
        opCodeOfInt_ok_mem _ _ hop
      dsimp only
      rcases Nat.lt_or_ge v.natAbs 100 with h100 | h100
      · -- two-digit absolute value: the mode string is just the minus sign
        have hdiv : v.natAbs / 100 = 0 := by omega
        have hM : natDigitsL (v.natAbs / 100) = [] := by
          rw [hdiv, natDigitsL_eq_nil_iff]
        rw [hM]
        refine ⟨DecodeError.invalidLiteral, ?_, ?_⟩
        · rfl
        · rw [hlow]
          exact iff_of_false (by decide) (not_not_intro hmem)
      · -- mode string is a negative numeral; the padded string keeps the sign
        have hdivne : v.natAbs / 100 ≠ 0 := by omega
        have hMne : natDigitsL (v.natAbs / 100) ≠ [] := by
          rw [Ne, natDigitsL_eq_nil_iff]; exact hdivne
        have hMrevne : ((natDigitsL (v.natAbs / 100)).reverse).map SChar.digit ≠ [] := by
          simp [hMne]
        have hparse2 : parseTokens
            (SChar.minus :: ((natDigitsL (v.natAbs / 100)).reverse).map SChar.digit)
            = .ok (-((v.natAbs / 100 : Nat) : Int)) := by
          rw [parseTokens_minus_cons, if_neg (by simp [hMne])]
          rw [parseDigitTokens_digits_reverse, digitsVal_natDigitsL]
          rfl
        rw [hparse2]
        simp only [List.isEmpty_cons, Bool.false_eq_true, if_false]
        have hmneg : (-((v.natAbs / 100 : Nat) : Int)) < 0 := by omega
        have hpad : padTokens (-((v.natAbs / 100 : Nat) : Int))
            op.expected_parameter_count
            = SChar.minus ::
              (List.replicate (op.expected_parameter_count - 1 -
                  (natDigitsM (-((v.natAbs / 100 : Nat) : Int)).natAbs).length)
                (SChar.digit 0) ++
                (natDigitsM (-((v.natAbs / 100 : Nat) : Int)).natAbs).map SChar.digit) := by
          rw [padTokens, if_pos hmneg]
        have hmemminus : SChar.minus ∈ (padTokens (-((v.natAbs / 100 : Nat) : Int))
            op.expected_parameter_count).reverse := by
          rw [List.mem_reverse, hpad]
          exact List.mem_cons_self _ _
        obtain ⟨e, herr⟩ := mapTokensToModes_error_of_mem _ _ hmemminus
          ⟨DecodeError.invalidLiteral, rfl⟩
        rw [herr]
        refine ⟨e, rfl, ?_⟩
        rw [hlow]
        refine iff_of_false ?_ (not_not_intro hmem)
        rcases mapTokensToModes_error_kind _ _ herr with he | he <;> subst he <;> decide

/-! ## Decoder characterization -/

theorem lowTwoDigits_natCast (n : Nat) :
    lowTwoDigits (n : Int) = ((n % 100 : Nat) : Int) := by
  rw [lowTwoDigits, Int.natAbs_ofNat]
  rcases Nat.lt_or_ge n 10 with h | h
  · rw [if_pos h, Nat.mod_eq_of_lt (by omega)]
  · rw [if_neg (by omega)]

theorem build_nonneg_invalidOpcode_iff (n : Nat) :
    Instruction.build_from_instruction_int (n : Int) = .error .invalidOpcode ↔
      ((n % 100 : Nat) : Int) ∉ knownOpcodes := by
  rw [build_eq_decodeArith]
  unfold decodeArith
  cases hop : opCodeOfInt ((n % 100 : Nat) : Int) with
  | error e =>
    have he := opCodeOfInt_error_kind _ _ hop
    subst he
    exact iff_of_true rfl ((opCodeOfInt_error_iff _).mp hop)
  | ok op =>
    have hmem := opCodeOfInt_ok_mem _ _ hop
    refine iff_of_false ?_ (not_not_intro hmem)
    intro h
    dsimp only at h
    rcases Nat.lt_or_ge n 100 with h100 | h100
    · rw [if_pos h100] at h; cases h
    · rw [if_neg (by omega : ¬n < 100)] at h
      cases hmap : mapTokensToModes
          ((natDigitsL (n / 100)).map SChar.digit ++
            List.replicate
              (op.expected_parameter_count - (natDigitsL (n / 100)).length)
              (SChar.digit 0)) with
      | ok modes => rw [hmap] at h; cases h
      | error e =>
        rw [hmap] at h
        have he : e = DecodeError.invalidOpcode := Except.error.inj h
        rcases mapTokensToModes_error_kind _ _ hmap with h1 | h1 <;>
          rw [h1] at he <;> cases he

theorem build_invalidOpcode_iff (v : Int) :
    Instruction.build_from_instruction_int v = .error .invalidOpcode ↔
      lowTwoDigits v ∉ knownOpcodes := by
  rcases Int.lt_or_le v 0 with hv | hv
  · obtain ⟨e, he, hiff⟩ := build_neg_spec v hv
    rw [he]
    constructor
    · intro h
      exact hiff.mp (Except.error.inj h)
    · intro h
      rw [hiff.mpr h]
  · obtain ⟨n, rfl⟩ : ∃ n : Nat, v = (n : Int) := ⟨v.toNat, (Int.toNat_of_nonneg hv).symm⟩
    rw [build_nonneg_invalidOpcode_iff, lowTwoDigits_natCast]

theorem decodeArith_ok_spec (n : Nat) (inst : Instruction)
    (h : decodeArith n = .ok inst) :
    opCodeOfInt ((n % 100 : Nat) : Int) = .ok inst.op_code ∧
    inst.parameter_mode_list.length
      = max inst.op_code.expected_parameter_count (natDigitsL (n / 100)).length ∧
    ∀ k, k < inst.parameter_mode_list.length →
      inst.parameter_mode_list[k]? = some (pmOfDigit (n / 100 / 10 ^ k % 10)) := by
  unfold decodeArith at h
  cases hop : opCodeOfInt ((n % 100 : Nat) : Int) with
  | error e => rw [hop] at h; cases h
  | ok op =>
    rw [hop] at h
    dsimp only at h
    rcases Nat.lt_or_ge n 100 with h100 | h100
    · rw [if_pos h100] at h
      have hinst : inst
          = ⟨op, List.replicate op.expected_parameter_count ParameterMode.POSITION⟩ :=
        (Except.ok.inj h).symm
      subst hinst
      have hdiv : n / 100 = 0 := by omega
      have hnil : natDigitsL (n / 100) = [] := by
        rw [hdiv, natDigitsL_eq_nil_iff]
      refine ⟨rfl, ?_, ?_⟩
      · simp [hnil]
      · intro k hk
        simp only [List.length_replicate] at hk
        rw [List.getElem?_replicate, if_pos hk, hdiv]
        simp [pmOfDigit]
    · rw [if_neg (by omega : ¬n < 100)] at h
      cases hmap : mapTokensToModes
          ((natDigitsL (n / 100)).map SChar.digit ++
            List.replicate
              (op.expected_parameter_count - (natDigitsL (n / 100)).length)
              (SChar.digit 0)) with
      | error e => rw [hmap] at h; cases h
      | ok modes =>
        rw [hmap] at h
        have hinst : inst = ⟨op, modes⟩ := (Except.ok.inj h).symm
        subst hinst
        have hmodes := mapTokensToModes_ok _ _ hmap
        refine ⟨rfl, ?_, ?_⟩
        · rw [hmodes]
          simp only [List.length_map, List.length_append, List.length_replicate]
          omega
        · intro k hk
          rw [hmodes] at hk ⊢
          simp only [List.length_map, List.length_append, List.length_replicate] at hk
          rw [List.getElem?_map]
          rcases Nat.lt_or_ge k (natDigitsL (n / 100)).length with hk2 | hk2
          · rw [List.getElem?_append_left (by simpa using hk2)]
            rw [List.getElem?_map, natDigitsL_getElem?,
              if_neg ((natDigitsL_length_iff _ _).mp hk2)]
            simp [tokenModeD_digit]
          · rw [List.getElem?_append_right (by simpa using hk2)]
            have hklt : k - (natDigitsL (n / 100)).length
                < op.expected_parameter_count - (natDigitsL (n / 100)).length := by
              omega
            rw [List.getElem?_replicate]
            simp only [List.length_map]
            rw [if_pos hklt]
            have hz : n / 100 / 10 ^ k = 0 :=
              Nat.div_eq_of_lt
                (lt_of_lt_of_le (lt_pow_length_natDigitsL _)
                  (Nat.pow_le_pow_right (by norm_num) hk2))
            rw [hz]
            simp [tokenModeD_digit, pmOfDigit]

/-! ## Claim theorems: decoder (C3, C6, C10) -/

/-- C3 counterexample: the raw value 199 decodes successfully to opcode
FINISHED (arity 0) with parameter-mode list `[IMMEDIATE]` of length 1, so
the decoded mode list does not always have length equal to the opcode's
fixed arity. -/
theorem C3_counterexample :
    Instruction.build_from_instruction_int 199
      = .ok ⟨OpCode.FINISHED, [ParameterMode.IMMEDIATE]⟩ ∧
    OpCode.FINISHED.expected_parameter_count = 0 ∧
    ([ParameterMode.IMMEDIATE] : List ParameterMode).length = 1 := by
  refine ⟨by decide, rfl, rfl⟩

/-- C3 (amended): for every raw instruction integer that decodes
successfully, the value is non-negative, the opcode is selected by the low
two decimal digits (raw mod 100), the mode list has length equal to the
maximum of the opcode's fixed arity and the number of decimal digits of
raw div 100 (so equal to the arity whenever the raw value carries at most
arity mode digits, with absent digits defaulting to POSITION, but longer
when more mode digits are present), and the k-th mode is given by the k-th
least-significant decimal digit of raw div 100; in particular 1002
decodes to MULTIPLY with modes [POSITION, IMMEDIATE, POSITION], and a raw
value with no mode digits decodes to arity-many POSITION modes. -/
theorem C3_theorem :
    (∀ (v : Int) (inst : Instruction),
      Instruction.build_from_instruction_int v = .ok inst →
      0 ≤ v ∧
      opCodeOfInt ((v.toNat % 100 : Nat) : Int) = .ok inst.op_code ∧
      inst.parameter_mode_list.length
        = max inst.op_code.expected_parameter_count
            (natDigitsL (v.toNat / 100)).length ∧
      ∀ k, k < inst.parameter_mode_list.length →
        inst.parameter_mode_list[k]?
          = some (pmOfDigit (v.toNat / 100 / 10 ^ k % 10))) ∧
    Instruction.build_from_instruction_int 1002
      = .ok ⟨OpCode.MULTIPLY,
          [ParameterMode.POSITION, ParameterMode.IMMEDIATE, ParameterMode.POSITION]⟩ ∧
    Instruction.build_from_instruction_int 2
      = .ok ⟨OpCode.MULTIPLY,
          [ParameterMode.POSITION, ParameterMode.POSITION, ParameterMode.POSITION]⟩ := by
  refine ⟨?_, by decide, by decide⟩
  intro v inst h
  rcases Int.lt_or_le v 0 with hv | hv
  · obtain ⟨e, he, _⟩ := build_neg_spec v hv
    rw [he] at h
    cases h
  · obtain ⟨n, rfl⟩ : ∃ n : Nat, v = (n : Int) := ⟨v.toNat, (Int.toNat_of_nonneg hv).symm⟩
    rw [build_eq_decodeArith] at h
    have hspec := decodeArith_ok_spec n inst h
    refine ⟨hv, ?_, ?_, ?_⟩
    · simpa using hspec.1
    · simpa using hspec.2.1
    · simpa using hspec.2.2

/-- C3 witness: the general characterization applied at the concrete raw
value 1002. -/
theorem C3_witness :
    ([ParameterMode.POSITION, ParameterMode.IMMEDIATE, ParameterMode.POSITION] :
        List ParameterMode).length
      = max OpCode.MULTIPLY.expected_parameter_count
          (natDigitsL ((1002 : Int).toNat / 100)).length :=
  (C3_theorem.1 1002
    ⟨OpCode.MULTIPLY,
      [ParameterMode.POSITION, ParameterMode.IMMEDIATE, ParameterMode.POSITION]⟩
    (by decide)).2.2.1

/-- C6: decoding a raw instruction integer fails with InvalidOpcode
exactly when its low two decimal digits do not form one of the known
opcodes 1..9 or 99; and when an instruction at the current program counter
fails to decode, every `run` call from that state aborts with the same
fatal decode error (resuming cannot recover). -/
theorem C6_theorem :
    (∀ v : Int,
      Instruction.build_from_instruction_int v = .error .invalidOpcode ↔
        lowTwoDigits v ∉ knownOpcodes) ∧
    (∀ (p : IntCodeProgram) (v : Int) (e : DecodeError),
      pyGet p.intcode p.i = .ok v →
      Instruction.build_from_instruction_int v = .error e →
      ∀ fuel : Nat, runFuel (fuel + 1) p = .error (.decodeErr e)) := by
  refine ⟨build_invalidOpcode_iff, ?_⟩
  intro p v e h1 h2 fuel
  have hstep : step p = .error (.decodeErr e) := by
    unfold step
    rw [h1]
    dsimp only
    rw [h2]
  simp only [runFuel, hstep]

/-- C6 witness: the opcode-failure characterization applied at raw value 0
(low two digits 0, not a known opcode), and the fatal-error part applied
to the one-element program `[0]`. -/
theorem C6_witness :
    Instruction.build_from_instruction_int 0 = .error .invalidOpcode ∧
    runFuel 1 (IntCodeProgram.construct [0])
      = .error (.decodeErr .invalidOpcode) :=
  ⟨(C6_theorem.1 0).mpr (by decide),
    C6_theorem.2 (IntCodeProgram.construct [0]) 0 .invalidOpcode (by decide)
      ((C6_theorem.1 0).mpr (by decide)) 0⟩

/-- C10: any raw instruction integer carrying a decimal mode digit greater
than 2 (at any position, in particular within the opcode's arity) fails to
decode, and a successfully decoded instruction only ever carries the three
known parameter modes. -/
theorem C10_theorem :
    (∀ (v : Int) (k : Nat), 0 ≤ v → 2 < v.toNat / 100 / 10 ^ k % 10 →
      ∃ e, Instruction.build_from_instruction_int v = .error e) ∧
    (∀ (v : Int) (inst : Instruction),
      Instruction.build_from_instruction_int v = .ok inst →
      ∀ m ∈ inst.parameter_mode_list,
        m = ParameterMode.POSITION ∨ m = ParameterMode.IMMEDIATE ∨
          m = ParameterMode.RELATIVE) := by
  constructor
  · intro v k hv hd
    obtain ⟨n, rfl⟩ : ∃ n : Nat, v = (n : Int) := ⟨v.toNat, (Int.toNat_of_nonneg hv).symm⟩
    rw [Int.toNat_natCast] at hd
    rw [build_eq_decodeArith]
    have hdig : (natDigitsL (n / 100))[k]? = some (n / 100 / 10 ^ k % 10) := by
      rw [natDigitsL_getElem?, if_neg (by intro hz; rw [hz] at hd; simp at hd)]
    have hmem : SChar.digit (n / 100 / 10 ^ k % 10) ∈
        (natDigitsL (n / 100)).map SChar.digit :=
      List.mem_map_of_mem _ (List.getElem?_mem hdig)
    have h100 : 100 ≤ n := by
      rcases Nat.lt_or_ge n 100 with hlt | hge
      · exfalso
        have : n / 100 = 0 := by omega
        rw [this] at hd
        simp at hd
      · exact hge
    unfold decodeArith
    cases hop : opCodeOfInt ((n % 100 : Nat) : Int) with
    | error e => exact ⟨e, rfl⟩
    | ok op =>
      dsimp only
      rw [if_neg (by omega : ¬n < 100)]
      obtain ⟨e, herr⟩ := mapTokensToModes_error_of_mem _ _
        (List.mem_append_left _ hmem)
        ⟨DecodeError.invalidParameterMode, parameterModeOfToken_digit_error _ hd⟩
      rw [herr]
      exact ⟨e, rfl⟩
  · intro v inst _ m _
    cases m
    · exact Or.inl rfl
    · exact Or.inr (Or.inl rfl)
    · exact Or.inr (Or.inr rfl)

/-- C10 witness: the raw value 30002 carries mode digit 3 for its third
parameter and indeed fails to decode. -/
theorem C10_witness :
    (0 : Int) ≤ 30002 ∧ 2 < (30002 : Int).toNat / 100 / 10 ^ 2 % 10 ∧
    ∃ e, Instruction.build_from_instruction_int 30002 = .error e :=
  ⟨by decide, by decide, C10_theorem.1 30002 2 (by decide) (by decide)⟩

/-! ## Diagnostic-code lemmas and claims (C5, C9) -/

theorem diagnostic_code_nil (p : IntCodeProgram) (h : p.program_output = []) :
    p.diagnostic_code = (.error .indexError, p) := by
  unfold IntCodeProgram.diagnostic_code
  rw [h]

theorem diagnostic_code_eq (p : IntCodeProgram) (h : p.program_output ≠ []) :
    p.diagnostic_code =
      if p.program_output.dropLast.any (fun c => c ≠ 0)
      then (.error .diagnosticFailure,
            { p with program_output := p.program_output.dropLast })
      else (.ok p.program_output.getLast!,
            { p with program_output := p.program_output.dropLast }) := by
  unfold IntCodeProgram.diagnostic_code
  cases hout : p.program_output with
  | nil => exact absurd hout h
  | cons a tl => rfl

/-- C5: for a non-empty output queue, extracting the diagnostic code
fails with the diagnostic failure exactly when some output value other
than the last is non-zero; otherwise it pops the last value off the queue
and returns it. -/
theorem C5_theorem (p : IntCodeProgram) (h : p.program_output ≠ []) :
    ((p.diagnostic_code).1 = .error .diagnosticFailure ↔
      ∃ c ∈ p.program_output.dropLast, c ≠ 0) ∧
    ((∀ c ∈ p.program_output.dropLast, c = 0) →
      (p.diagnostic_code).1 = .ok p.program_output.getLast! ∧
      (p.diagnostic_code).2.program_output = p.program_output.dropLast) := by
  rw [diagnostic_code_eq p h]
  by_cases hc : ∃ c ∈ p.program_output.dropLast, c ≠ 0
  · have hb : (p.program_output.dropLast.any fun c => decide (c ≠ 0)) = true := by
      rw [List.any_eq_true]
      obtain ⟨c, hm, hne⟩ := hc
      exact ⟨c, hm, by simpa using hne⟩
    rw [if_pos hb]
    constructor
    · exact iff_of_true rfl hc
    · intro hall
      exfalso
      obtain ⟨c, hm, hne⟩ := hc
      exact hne (hall c hm)
  · have hb : (p.program_output.dropLast.any fun c => decide (c ≠ 0)) = false := by
      cases hbool : (p.program_output.dropLast.any fun c => decide (c ≠ 0)) with
      | false => rfl
      | true =>
        exfalso
        rw [List.any_eq_true] at hbool
        obtain ⟨c, hm, hcc⟩ := hbool
        exact hc ⟨c, hm, by simpa using hcc⟩
    rw [if_neg (by rw [hb]; simp)]
    constructor
    · refine iff_of_false ?_ hc
      intro hbad
      simp at hbad
    · intro _
      exact ⟨rfl, rfl⟩

/-- C5 witness: output queue `[0, 7]` has only zeros before the last
value, so extraction returns 7. -/
theorem C5_witness :
    ((⟨[], [], [0, 7], 0, false, 0⟩ : IntCodeProgram).diagnostic_code).1
      = .ok ((⟨[], [], [0, 7], 0, false, 0⟩ : IntCodeProgram).program_output.getLast!) :=
  ((C5_theorem ⟨[], [], [0, 7], 0, false, 0⟩ (by decide)).2 (by decide)).1

/-- C9: the diagnostic extraction pops the last output value before the
failure check, so after a diagnostic failure the queue holds the original
elements minus the final one (and the queue was necessarily non-empty);
and on an empty output queue the extraction fails with an IndexError from
the pop, not with the diagnostic failure, leaving the queue unchanged. -/
theorem C9_theorem :
    (∀ p : IntCodeProgram, (∃ c ∈ p.program_output.dropLast, c ≠ 0) →
      (p.diagnostic_code).1 = .error .diagnosticFailure ∧
      (p.diagnostic_code).2.program_output = p.program_output.dropLast ∧
      p.program_output ≠ []) ∧
    (∀ p : IntCodeProgram, p.program_output = [] →
      (p.diagnostic_code).1 = .error .indexError ∧
      RunErr.indexError ≠ RunErr.diagnosticFailure ∧
      (p.diagnostic_code).2 = p) := by
  constructor
  · intro p hc
    have hne : p.program_output ≠ [] := by
      intro hnil
      obtain ⟨c, hm, _⟩ := hc
      rw [hnil] at hm
      simp at hm
    have hb : (p.program_output.dropLast.any fun c => decide (c ≠ 0)) = true := by
      rw [List.any_eq_true]
      obtain ⟨c, hm, hcc⟩ := hc
      exact ⟨c, hm, by simpa using hcc⟩
    rw [diagnostic_code_eq p hne, if_pos hb]
    exact ⟨rfl, rfl, hne⟩
  · intro p hnil
    rw [diagnostic_code_nil p hnil]
    exact ⟨rfl, by decide, rfl⟩

/-- C9 witness: output queue `[5, 7]` has a non-zero value before the
last one; the extraction fails with the diagnostic failure and leaves the
queue holding `[5]`; and with empty output the extraction raises the
IndexError of `pop`. -/
theorem C9_witness :
    ((⟨[], [], [5, 7], 0, false, 0⟩ : IntCodeProgram).diagnostic_code).1
        = .error .diagnosticFailure ∧
    ((⟨[], [], [5, 7], 0, false, 0⟩ :
        IntCodeProgram).diagnostic_code).2.program_output = [5] ∧
    ((⟨[], [], [], 0, false, 0⟩ : IntCodeProgram).diagnostic_code).1
        = .error .indexError :=
  ⟨(C9_theorem.1 ⟨[], [], [5, 7], 0, false, 0⟩ ⟨5, by decide, by decide⟩).1,
    (C9_theorem.1 ⟨[], [], [5, 7], 0, false, 0⟩ ⟨5, by decide, by decide⟩).2.1,
    (C9_theorem.2 ⟨[], [], [], 0, false, 0⟩ rfl).1⟩

/-! ## Concrete-execution claims (C7, C8, C2, C4) -/

/-- C7: the day-2 fixture image runs to the Halted status in two
instructions, leaving exactly the documented final memory (the program
counter rests at the HALT instruction, index 8). -/
theorem C7_theorem :
    runFuel 10 (IntCodeProgram.construct [1, 9, 10, 3, 2, 3, 11, 0, 99, 30, 40, 50])
      = .ok (.done ⟨[3500, 9, 10, 70, 2, 3, 11, 0, 99, 30, 40, 50],
          [], [], 8, true, 0⟩) := by decide

/-- C8 counterexample: the two-instruction infinite jump loop
`[1105, 1, 0]` (JUMP_IF_TRUE with immediate parameters 1 and 0) steps
back to the identical state, and running it exhausts any fuel without
`run` ever returning or raising an error: the source has no step counter
and no ExecutionLimitExceeded error exists. -/
theorem C8_counterexample :
    step (IntCodeProgram.construct [1105, 1, 0])
      = .ok (.next (IntCodeProgram.construct [1105, 1, 0])) ∧
    runFuel 10 (IntCodeProgram.construct [1105, 1, 0])
      = .ok (.outOfFuel (IntCodeProgram.construct [1105, 1, 0])) := by decide

/-- C8 (amended): on a program that never reaches HALT and never
suspends, such as the jump loop `[1105, 1, 0]`, `run()` simply never
terminates: every finite number of loop iterations ends with the loop
still running in the unchanged state, and no error of any kind (in
particular no execution-limit error, which does not exist in the source)
is raised. -/
theorem C8_theorem (fuel : Nat) :
    runFuel fuel (IntCodeProgram.construct [1105, 1, 0])
      = .ok (.outOfFuel (IntCodeProgram.construct [1105, 1, 0])) := by
  induction fuel with
  | zero => rfl
  | succ n ih =>
    have hstep : step (IntCodeProgram.construct [1105, 1, 0])
        = .ok (.next (IntCodeProgram.construct [1105, 1, 0])) := by decide
    simp only [runFuel, hstep]
    exact ih

/-- C2: executing the source's own docstring example `3,50` (INPUT in
POSITION mode storing to address 50) with input available raises
IndexError, because this branch writes `intcode[num]` without first
calling `extend_memory`; memory beyond the current length is not
extended on this write path, contradicting the documented memory
invariant. -/
theorem C2_code_bug :
    runFuel 5 (⟨[3, 50], [7], [], 0, false, 0⟩ : IntCodeProgram)
      = .error .indexError := by decide

/-- C4: the program `[4, -1, 99]` requests a read at the negative address
-1; instead of failing with any memory-access error, the VM wraps around
Python-style, reads the last memory cell (99), outputs it and halts
normally. -/
theorem C4_code_bug :
    runFuel 5 (IntCodeProgram.construct [4, -1, 99])
      = .ok (.done ⟨[4, -1, 99], [], [99], 2, true, 0⟩) := by decide

/-! ## Suspend/resume claim (C1) -/

theorem extend_memory_intcode (p : IntCodeProgram) (index : Int) :
    ∃ nz : Nat, (p.extend_memory index).intcode = p.intcode ++ List.replicate nz 0 := by
  unfold IntCodeProgram.extend_memory
  dsimp only
  split
  · exact ⟨_, rfl⟩
  · exact ⟨0, by simp⟩

theorem extend_memory_fields (p : IntCodeProgram) (index : Int) :
    (p.extend_memory index).program_input = p.program_input ∧
    (p.extend_memory index).program_output = p.program_output ∧
    (p.extend_memory index).i = p.i ∧
    (p.extend_memory index).ran_to_completion = p.ran_to_completion ∧
    (p.extend_memory index).relative_base = p.relative_base := by
  unfold IntCodeProgram.extend_memory
  dsimp only
  split
  · exact ⟨rfl, rfl, rfl, rfl, rfl⟩
  · exact ⟨rfl, rfl, rfl, rfl, rfl⟩

theorem pySet_ok (l : List Int) (index value : Int) (ic : List Int)
    (h : pySet l index value = .ok ic) : ∃ j : Nat, ic = l.set j value := by
  unfold pySet at h
  dsimp only at h
  split at h <;> split at h
  all_goals first
  | exact ⟨_, (Except.ok.inj h).symm⟩
  | cases h

/-- C1 (amended): when `run` reaches an INPUT instruction with an empty
input queue it returns with the suspended status, the program counter
unchanged, no input consumed, and the output queue and relative base
untouched; in POSITION mode the memory is completely untouched, while in
RELATIVE mode the target-address `extend_memory` call happens before the
input check, so the memory may already have been extended with zeros at
suspension time (the only side effect).  After pushing one input value
and calling `run` again, exactly that value is consumed and written, by
an actual in-range list write, to the resolved address — the raw
parameter in POSITION mode, the parameter plus the relative base in
RELATIVE mode (into the correspondingly extended memory) — and the
program counter advances by exactly one instruction (two cells), with no
duplicate side effects. -/
theorem C1_theorem (p : IntCodeProgram) (v : Int) (inst : Instruction)
    (mode : ParameterMode)
    (h1 : pyGet p.intcode p.i = .ok v)
    (h2 : Instruction.build_from_instruction_int v = .ok inst)
    (h3 : inst.op_code = OpCode.SAVE_TO_ADDRESS)
    (hm : inst.parameter_mode_list[0]? = some mode) :
    (∀ r, p.program_input = [] → step p = .ok r →
      ∃ p', r = .ret p' ∧ p'.ran_to_completion = false ∧ p'.i = p.i ∧
        p'.program_input = [] ∧ p'.program_output = p.program_output ∧
        p'.relative_base = p.relative_base ∧
        (mode = ParameterMode.POSITION ∨ mode = ParameterMode.RELATIVE) ∧
        (mode = ParameterMode.POSITION → p'.intcode = p.intcode) ∧
        (mode = ParameterMode.RELATIVE →
          ∃ pv, pyGet p.intcode (p.i + 1) = .ok pv ∧
            p'.intcode = (p.extend_memory (pv + p.relative_base)).intcode ∧
            ∃ nz : Nat, p'.intcode = p.intcode ++ List.replicate nz 0)) ∧
    (∀ x rest r, p.program_input = x :: rest → step p = .ok r →
      ∃ p' : IntCodeProgram, r = .next p' ∧
        p'.program_input = rest ∧ p'.i = p.i + 2 ∧
        p'.program_output = p.program_output ∧
        p'.relative_base = p.relative_base ∧
        p'.ran_to_completion = p.ran_to_completion ∧
        (mode = ParameterMode.POSITION ∨ mode = ParameterMode.RELATIVE) ∧
        (mode = ParameterMode.POSITION →
          ∃ num, pyGet p.intcode (p.i + 1) = .ok num ∧
            pySet p.intcode num x = .ok p'.intcode) ∧
        (mode = ParameterMode.RELATIVE →
          ∃ pv, pyGet p.intcode (p.i + 1) = .ok pv ∧
            pySet (p.extend_memory (pv + p.relative_base)).intcode
              (pv + p.relative_base) x = .ok p'.intcode)) := by
  have hstep : step p = inputOp p inst := by
    unfold step
    rw [h1]
    dsimp only
    rw [h2]
    dsimp only
    unfold stepDecoded
    rw [h3]
  have hcount : inst.op_code.expected_parameter_count = 1 := by rw [h3]; rfl
  constructor
  · intro r hin hrun
    rw [hstep] at hrun
    unfold inputOp at hrun
    rw [hm] at hrun
    dsimp only at hrun
    cases mode with
    | IMMEDIATE => cases hrun
    | POSITION =>
      cases hg : pyGet p.intcode (p.i + 1) with
      | error e => rw [hg] at hrun; cases hrun
      | ok num =>
        rw [hg] at hrun
        simp only [Except.map] at hrun
        rw [hin] at hrun
        exact ⟨_, (Except.ok.inj hrun).symm, rfl, rfl, rfl, rfl, rfl, Or.inl rfl,
          fun _ => rfl, fun hmr => absurd hmr (by decide)⟩
    | RELATIVE =>
      cases hg : pyGet p.intcode (p.i + 1) with
      | error e => rw [hg] at hrun; cases hrun
      | ok pv =>
        rw [hg] at hrun
        dsimp only at hrun
        have hf := extend_memory_fields p (pv + p.relative_base)
        rw [hf.1, hin] at hrun
        exact ⟨_, (Except.ok.inj hrun).symm, rfl, hf.2.2.1, rfl, hf.2.1,
          hf.2.2.2.2, Or.inr rfl, fun hmp => absurd hmp (by decide),
          fun _ => ⟨pv, rfl, rfl, extend_memory_intcode p (pv + p.relative_base)⟩⟩
  · intro x rest r hin hrun
    rw [hstep] at hrun
    unfold inputOp at hrun
    rw [hm] at hrun
    dsimp only at hrun
    cases mode with
    | IMMEDIATE => cases hrun
    | POSITION =>
      cases hg : pyGet p.intcode (p.i + 1) with
      | error e => rw [hg] at hrun; cases hrun
      | ok num =>
        rw [hg] at hrun
        simp only [Except.map] at hrun
        rw [hin] at hrun
        dsimp only at hrun
        cases hset : pySet p.intcode num x with
        | error e => rw [hset] at hrun; cases hrun
        | ok ic =>
          rw [hset] at hrun
          refine ⟨_, (Except.ok.inj hrun).symm, rfl, ?_, rfl, rfl, rfl, Or.inl rfl,
            fun _ => ⟨num, rfl, hset⟩, fun hmr => absurd hmr (by decide)⟩
          rw [hcount]
          push_cast
          ring
    | RELATIVE =>
      cases hg : pyGet p.intcode (p.i + 1) with
      | error e => rw [hg] at hrun; cases hrun
      | ok pv =>
        rw [hg] at hrun
        dsimp only at hrun
        have hf := extend_memory_fields p (pv + p.relative_base)
        rw [hf.1, hin] at hrun
        dsimp only at hrun
        cases hset : pySet (p.extend_memory (pv + p.relative_base)).intcode
            (pv + p.relative_base) x with
        | error e => rw [hset] at hrun; cases hrun
        | ok ic =>
          rw [hset] at hrun
          refine ⟨_, (Except.ok.inj hrun).symm, rfl, ?_, hf.2.1, hf.2.2.2.2,
            hf.2.2.2.1, Or.inr rfl, fun hmp => absurd hmp (by decide),
            fun _ => ⟨pv, rfl, hset⟩⟩
          rw [hcount, hf.2.2.1]
          push_cast
          ring

/-- C1 counterexample: on the image `[203, 5, 99]` (INPUT in RELATIVE
mode) with an empty input queue, `run` suspends with the program counter
unchanged but the memory already extended from 3 to 6 cells — a side
effect performed before the input was confirmed present, contradicting
the claim that no memory extension occurs on a suspending INPUT. -/
theorem C1_counterexample :
    runFuel 3 (IntCodeProgram.construct [203, 5, 99])
      = .ok (.done ⟨[203, 5, 99, 0, 0, 0], [], [], 0, false, 0⟩) ∧
    ([203, 5, 99, 0, 0, 0] : List Int) ≠ [203, 5, 99] := by decide

/-- C1 witness: the suspend half applied to the image `[3, 5, 99]` with
an empty input queue (POSITION mode, memory untouched), and the resume
half applied to the image `[3, 0, 99]` with input value 7 (the value is
written to the resolved address 0 and the program counter advances to 2). -/
theorem C1_witness :
    (∃ p', StepRes.ret (⟨[3, 5, 99], [], [], 0, false, 0⟩ : IntCodeProgram)
        = StepRes.ret p' ∧
      p'.ran_to_completion = false ∧ p'.i = 0 ∧ p'.program_input = [] ∧
      p'.program_output = [] ∧ p'.relative_base = 0 ∧
      (ParameterMode.POSITION = ParameterMode.POSITION ∨
        ParameterMode.POSITION = ParameterMode.RELATIVE) ∧
      (ParameterMode.POSITION = ParameterMode.POSITION →
        p'.intcode = [3, 5, 99]) ∧
      (ParameterMode.POSITION = ParameterMode.RELATIVE →
        ∃ pv, pyGet [3, 5, 99] (0 + 1) = .ok pv ∧
          p'.intcode = ((⟨[3, 5, 99], [], [], 0, false, 0⟩ :
            IntCodeProgram).extend_memory (pv + 0)).intcode ∧
          ∃ nz : Nat, p'.intcode = [3, 5, 99] ++ List.replicate nz 0)) ∧
    (∃ p', StepRes.next (⟨[7, 0, 99], [], [], 2, false, 0⟩ : IntCodeProgram)
        = StepRes.next p' ∧
      p'.program_input = [] ∧ p'.i = 0 + 2 ∧ p'.program_output = [] ∧
      p'.relative_base = 0 ∧ p'.ran_to_completion = false ∧
      (ParameterMode.POSITION = ParameterMode.POSITION ∨
        ParameterMode.POSITION = ParameterMode.RELATIVE) ∧
      (ParameterMode.POSITION = ParameterMode.POSITION →
        ∃ num, pyGet [3, 0, 99] (0 + 1) = .ok num ∧
          pySet [3, 0, 99] num 7 = .ok p'.intcode) ∧
      (ParameterMode.POSITION = ParameterMode.RELATIVE →
        ∃ pv, pyGet [3, 0, 99] (0 + 1) = .ok pv ∧
          pySet ((⟨[3, 0, 99], [7], [], 0, false, 0⟩ :
              IntCodeProgram).extend_memory (pv + 0)).intcode
            (pv + 0) 7 = .ok p'.intcode)) :=
  ⟨(C1_theorem ⟨[3, 5, 99], [], [], 0, false, 0⟩ 3
      ⟨OpCode.SAVE_TO_ADDRESS, [ParameterMode.POSITION]⟩ ParameterMode.POSITION
      (by decide) (by decide) rfl rfl).1
    (StepRes.ret ⟨[3, 5, 99], [], [], 0, false, 0⟩) rfl (by decide),
   (C1_theorem ⟨[3, 0, 99], [7], [], 0, false, 0⟩ 3
      ⟨OpCode.SAVE_TO_ADDRESS, [ParameterMode.POSITION]⟩ ParameterMode.POSITION
      (by decide) (by decide) rfl rfl).2
    7 [] (StepRes.next ⟨[7, 0, 99], [], [], 2, false, 0⟩) rfl (by decide)⟩

/-- C8 witness: the nontermination theorem applied at fuel 5. -/
theorem C8_witness :
    runFuel 5 (IntCodeProgram.construct [1105, 1, 0])
      = .ok (.outOfFuel (IntCodeProgram.construct [1105, 1, 0])) :=
  C8_theorem 5
